import Mathlib

/-!
# Verification of the `fmin/trust_constr.py` adapter layer

Shallow embedding of the pytorch-minimize `trust_constr` module: the tensor
codec (`to_tensor` / encode), the objective adapter (`f_with_jac`, `f_hess`),
the constraint adapter (`_build_constr` with its `f`, `f_jac`, `f_hess`
closures), the bounds normalizer (`_build_bound`), the callback wrapper and
the driver `fmin_trust_constr`.

Modelling conventions:
* Numeric scalars are rationals (`Q`); the claims checked here are about data
  movement, dispatch and validation, never about rounding.
* A tensor is its shape, dtype, device and a flat row-major data list.
* numpy scalar values that may be `±inf` (bound values) are a separate type
  `BV`.
* The external autodiff engine is represented by the semantic interface a
  differentiable function exposes to this code: its value, its reverse-mode
  gradient (`torch.autograd.grad(f(x), x)`), its second reverse pass through
  a retained gradient graph (`torch.autograd.grad(grad, x, p)`), and the
  vector-Jacobian product used when a `jac` override is differentiated again.
  A `none` result models the `RuntimeError` autograd raises on a disconnected
  graph.
* Python exceptions (`assert`, `ValueError`, shape errors of `view`/`view_as`,
  autograd errors) become `Except Err`.
* Calls into user overrides and into the autodiff engine are recorded as an
  event trace, so that claims about which engine is invoked are statements
  about the trace.
-/

namespace TrustConstr

/-- Numeric scalar carried by tensors and flat vectors. -/
abbrev Q := Rat

/-- Element dtype of a tensor (the anchor fixes one for the whole solve). -/
inductive Dtype
  | float32
  | float64
deriving DecidableEq

/-- Residency of a tensor. -/
inductive Device
  | cpu
  | cuda
deriving DecidableEq

/-- A tensor: shape, dtype, device and flat row-major data.
Mirrors the `torch.Tensor` values flowing through `trust_constr.py`. -/
structure Tensor where
  shape : List Nat
  dtype : Dtype
  device : Device
  data : List Q
deriving DecidableEq

/-- `t.numel()`: the product of the shape dimensions. -/
def Tensor.numel (t : Tensor) : Nat := t.shape.prod

/-- A tensor is well formed when its data list has exactly `numel` entries;
every tensor produced by torch satisfies this. -/
def Tensor.wf (t : Tensor) : Prop := t.data.length = t.numel

instance (t : Tensor) : Decidable t.wf := by
  unfold Tensor.wf; infer_instance

/-- Python exceptions surfaced by the module. -/
inductive Err
  | shapeMismatch   -- RuntimeError of `view` / `view_as` on a size mismatch
  | gradNone        -- RuntimeError of `torch.autograd.grad` (disconnected graph)
  | assertFail      -- a failing `assert`
  | valueError      -- `ValueError('Bound value has unrecognized format.')`
  | typeError       -- calling a non-callable stored in the constraint dict
  | indexError      -- `v[0]` on an empty multiplier array
deriving DecidableEq

/-- `to_tensor(x)` from `_build_funcs` / `_build_constr` (lines 13-14, 49-50):
`torch.tensor(x, dtype=x0.dtype, device=x0.device).view_as(x0)`.
`torch.tensor` copies the flat host array to a fresh 1-D tensor with the
anchor's dtype/device; `view_as` reshapes to the anchor's shape and raises
when the element counts differ. -/
def to_tensor (x0 : Tensor) (x : List Q) : Except Err Tensor :=
  if x.length = x0.numel then
    .ok ⟨x0.shape, x0.dtype, x0.device, x⟩
  else
    .error .shapeMismatch

/-- `t.detach().cpu().numpy().flatten()` (and the `t.view(-1).cpu().numpy()`
variant): the flat host array holding the tensor's data. Detaching and moving
to host do not change the stored values; flattening of row-major data is the
data list itself. -/
def Tensor.encode (t : Tensor) : List Q := t.data

/-- The semantic interface of a differentiable tensor function, as exposed by
the external autodiff engine.
* `eval x` — calling the function;
* `grad x` — `torch.autograd.grad(f(x), x)` after a tracked evaluation;
  `none` models the RuntimeError raised when the output does not depend on
  `x` (disconnected or detached graph), in which case no gradient exists;
* `hvp x p` — `torch.autograd.grad(grad, x, p)` where `grad` was produced
  with `create_graph=True`: the second reverse pass driven by `p`;
* `vjp x p` — `torch.autograd.grad(g(x), x, p)` for this function used as a
  first-order `jac` override that is differentiated once more. -/
structure DiffFn where
  eval : Tensor → Tensor
  grad : Tensor → Option Tensor
  hvp : Tensor → Tensor → Option Tensor
  vjp : Tensor → Tensor → Option Tensor

/-- `f_with_jac` from `_build_funcs` (lines 16-21): decode the flat iterate,
evaluate `f` under `enable_grad`, take one reverse-mode gradient, and return
the detached host value together with the flattened host gradient.
`torch.autograd.grad` raises when no gradient exists; nothing ever
substitutes zeros. -/
def f_with_jac (f : DiffFn) (x0 : Tensor) (x : List Q) :
    Except Err (List Q × List Q) := do
  let xt ← to_tensor x0 x
  let fval := f.eval xt
  match f.grad xt with
  | none => .error .gradNone
  | some g => .ok (fval.encode, g.encode)

/-- A matrix-free linear operator: size and matvec.
Mirrors `scipy.sparse.linalg.LinearOperator((n, n), matvec=matvec)`. -/
structure Linop where
  n : Nat
  matvec : List Q → Except Err (List Q)

/-- `f_hess` from `_build_funcs` (lines 23-32): decode the point, evaluate
`f` with `create_graph=True` gradient, and wrap the second reverse pass as a
linear operator. -/
def obj_f_hess (f : DiffFn) (x0 : Tensor) (x : List Q) : Except Err Linop := do
  let xt ← to_tensor x0 x
  match f.grad xt with
  | none => .error .gradNone
  | some _ =>
      .ok ⟨x0.numel, fun p => do
        let pt ← to_tensor x0 p
        match f.hvp xt pt with
        | none => .error .gradNone
        | some h => .ok h.encode⟩

/-! ## Bound values and the bounds normalizer -/

/-- A numpy scalar bound value: a finite number, `np.inf` or `-np.inf`. -/
inductive BV
  | fin (q : Q)
  | pinf
  | ninf
deriving DecidableEq

/-- A bound specification as the user may pass it: a Python number (possibly
infinite), a torch tensor, a numpy array, or something unrecognized. -/
inductive BSpec
  | num (b : BV)
  | tens (t : Tensor)
  | arr (a : List BV)
  | other
deriving DecidableEq

/-- `_build_bound(val, x0)` (lines 95-105): a number broadcasts to a full
vector of the anchor's element count; a tensor must have the anchor's element
count and is flattened to host; an array must already have the right length;
anything else raises `ValueError`. -/
def build_bound (val : BSpec) (x0 : Tensor) : Except Err (List BV) :=
  match val with
  | .num b => .ok (List.replicate x0.numel b)
  | .tens t => if t.numel = x0.numel then .ok (t.data.map BV.fin) else .error .assertFail
  | .arr a => if a.length = x0.numel then .ok a else .error .assertFail
  | .other => .error .valueError

/-! ## The constraint specification dict -/

/-- A value stored in a constraint dict: the constraint function, a bound
specification, or one of the `jac`/`hess`/`hessp` overrides. The `jac`
override is a `DiffFn` because the code differentiates through it in the
autodiff Hessian fallback; `hess`/`hessp` are only ever called. -/
inductive DVal
  | vfun (f : DiffFn)
  | vbound (b : BSpec)
  | vjac (j : DiffFn)
  | vhess (h : Tensor → Tensor)
  | vhessp (hp : Tensor → Tensor → Tensor)

/-- A Python dict as an insertion-ordered association list with unique keys;
`d[k] = v` on a missing key appends. -/
abbrev Dict := List (String × DVal)

/-- Key lookup, first match. -/
def dfind : Dict → String → Option DVal
  | [], _ => none
  | (k, v) :: rest, k' => if k = k' then some v else dfind rest k'

/-- `k in d`. -/
def hasKey (d : Dict) (k : String) : Bool := (dfind d k).isSome

/-- The keys of the dict, in insertion order. -/
def dkeys (d : Dict) : List String := d.map (fun kv => kv.1)

/-- `_constr_keys` (line 8). -/
def constrKeys : List String := ["fun", "lb", "ub", "jac", "hess", "hessp"]

/-- Lines 42-45 of `_build_constr`: fill a missing `lb` with `-np.inf` and a
missing `ub` with `np.inf`. In Python this is an in-place mutation of the
caller's dict; the function returns the dict's new state. -/
def defaultBounds (d : Dict) : Dict :=
  let d1 := if hasKey d "lb" then d else d ++ [("lb", DVal.vbound (.num .ninf))]
  if hasKey d1 "ub" then d1 else d1 ++ [("ub", DVal.vbound (.num .pinf))]

/-- The `lb`/`ub` entry of the dict as passed verbatim to
`NonlinearConstraint` (no normalization happens on this path); a non-bound
value would be handed to scipy as-is, represented by `.other`. -/
def asBound : Option DVal → BSpec
  | some (.vbound b) => b
  | _ => .other

/-! ## The constraint adapter closures -/

/-- Calls recorded while a constraint adapter closure runs. -/
inductive Ev
  | autograd   -- a `torch.autograd.grad` call (first- or second-order)
  | callFun    -- calling the user's constraint function
  | callJac    -- calling the user's `jac` override
  | callHess   -- calling the user's `hess` override
  | callHessp  -- calling the user's `hessp` override
deriving DecidableEq

/-- The closure `f` of `_build_constr` (lines 52-54): decode, evaluate the
constraint function, move to host. -/
def c_value (fv : DVal) (x0 : Tensor) (x : List Q) :
    Except Err (List Q × List Ev) :=
  match to_tensor x0 x with
  | .error e => .error e
  | .ok xt =>
      match fv with
      | .vfun fd => .ok ((fd.eval xt).encode, [.callFun])
      | _ => .error .typeError

/-- The closure `f_jac` of `_build_constr` (lines 56-64): the caller's `jac`
override when the key is present, otherwise one reverse-mode autodiff pass
over the constraint function; either way flattened to host. -/
def c_jac (d : Dict) (fv : DVal) (x0 : Tensor) (x : List Q) :
    Except Err (List Q × List Ev) :=
  match to_tensor x0 x with
  | .error e => .error e
  | .ok xt =>
      if hasKey d "jac" then
        match dfind d "jac" with
        | some (.vjac j) => .ok ((j.eval xt).encode, [.callJac])
        | _ => .error .typeError
      else
        match fv with
        | .vfun fd =>
            match fd.grad xt with
            | none => .error .gradNone
            | some g => .ok (g.encode, [.autograd])
        | _ => .error .typeError

/-- What the constraint Hessian callable returns: a dense scaled matrix
(flattened n×n) or a matrix-free linear operator whose matvec also records
its calls. -/
inductive HessOut
  | dense (m : List Q)
  | linop (n : Nat) (mv : List Q → Except Err (List Q × List Ev))

/-- `true` on the linear-operator form. -/
def HessOut.isLinop : HessOut → Bool
  | .dense _ => false
  | .linop _ _ => true

/-- The closure `f_hess(x, v)` of `_build_constr` (lines 66-88), three tiers
tried in order:
1. `hess` present: dense `hess(x)` reshaped to n×n and scaled by `v[0]`;
2. `hessp` present: a linear operator whose matvec decodes `p`, calls
   `hessp(x, p)`, flattens and scales by `v[0]`;
3. otherwise reverse-over-reverse autodiff, with the first-order pass taken
   from the `jac` override when present, each matvec scaled by `v[0]`. -/
def c_hess (d : Dict) (fv : DVal) (x0 : Tensor) (x : List Q) (v : List Q) :
    Except Err (HessOut × List Ev) :=
  match to_tensor x0 x with
  | .error e => .error e
  | .ok xt =>
      match v with
      | [] => .error .indexError
      | v0 :: _ =>
          if hasKey d "hess" then
            match dfind d "hess" with
            | some (.vhess hh) =>
                let ht := hh xt
                if ht.numel = x0.numel * x0.numel then
                  .ok (.dense (ht.encode.map (fun q => v0 * q)), [.callHess])
                else .error .shapeMismatch
            | _ => .error .typeError
          else if hasKey d "hessp" then
            match dfind d "hessp" with
            | some (.vhessp hp) =>
                .ok (.linop x0.numel (fun p =>
                  match to_tensor x0 p with
                  | .error e => .error e
                  | .ok pt =>
                      .ok (((hp xt pt).encode).map (fun q => v0 * q),
                        [.callHessp])), [])
            | _ => .error .typeError
          else if hasKey d "jac" then
            match dfind d "jac" with
            | some (.vjac j) =>
                .ok (.linop x0.numel (fun p =>
                  match to_tensor x0 p with
                  | .error e => .error e
                  | .ok pt =>
                      match j.vjp xt pt with
                      | none => .error .gradNone
                      | some h =>
                          .ok (h.encode.map (fun q => v0 * q),
                            [.autograd])), [.callJac])
            | _ => .error .typeError
          else
            match fv with
            | .vfun fd =>
                match fd.grad xt with
                | none => .error .gradNone
                | some _ =>
                    .ok (.linop x0.numel (fun p =>
                      match to_tensor x0 p with
                      | .error e => .error e
                      | .ok pt =>
                          match fd.hvp xt pt with
                          | none => .error .gradNone
                          | some h =>
                              .ok (h.encode.map (fun q => v0 * q),
                                [.autograd])), [.autograd])
            | _ => .error .typeError

/-- Apply the Hessian callable's result as an operator to a direction `p`,
concatenating setup events with matvec events (a dense result exposes no
matvec). -/
def applyHess (r : Except Err (HessOut × List Ev)) (p : List Q) :
    Except Err (List Q × List Ev) :=
  match r with
  | .error e => .error e
  | .ok (.dense _, _) => .error .typeError
  | .ok (.linop _ mv, evs) =>
      match mv p with
      | .error e => .error e
      | .ok (y, evs2) => .ok (y, evs ++ evs2)

/-- The record handed to `scipy.optimize.NonlinearConstraint` (lines 90-92):
the wrapped value function, the dict's `lb`/`ub` entries verbatim, the
Jacobian closure and the Hessian closure. -/
structure NLConstraint where
  cfun : List Q → Except Err (List Q × List Ev)
  lb : BSpec
  ub : BSpec
  cjac : List Q → Except Err (List Q × List Ev)
  chess : List Q → List Q → Except Err (HessOut × List Ev)

/-- `_build_constr(constr, x0)` (lines 37-92): validate the dict (keys a
subset of `_constr_keys`, `fun` present, at least one of `lb`/`ub`), fill
missing bound defaults in place, and return the dict's post-call state
together with the constraint record. -/
def build_constr (constr : Dict) (x0 : Tensor) :
    Except Err (Dict × NLConstraint) :=
  if ¬ (dkeys constr).all (fun k => k ∈ constrKeys) then .error .assertFail
  else if ¬ hasKey constr "fun" then .error .assertFail
  else if ¬ (hasKey constr "lb" ∨ hasKey constr "ub") then .error .assertFail
  else
    let d := defaultBounds constr
    let fv := (dfind d "fun").getD (DVal.vbound .other)
    .ok (d,
      { cfun := c_value fv x0
        lb := asBound (dfind d "lb")
        ub := asBound (dfind d "ub")
        cjac := c_jac d fv x0
        chess := c_hess d fv x0 })

/-! ## Dict lemmas -/

theorem dfind_append (d e : Dict) (k : String) :
    dfind (d ++ e) k =
      match dfind d k with
      | some v => some v
      | none => dfind e k := by
  induction d with
  | nil => rfl
  | cons kv rest ih =>
      by_cases h : kv.1 = k
      · simp [dfind, h]
      · simp [dfind, h, ih]

theorem hasKey_append (d e : Dict) (k : String) :
    hasKey (d ++ e) k = (hasKey d k || hasKey e k) := by
  simp only [hasKey, dfind_append]
  cases dfind d k <;> simp

theorem dfind_of_not_hasKey (d : Dict) (k : String) (h : hasKey d k = false) :
    dfind d k = none := by
  simpa [hasKey, Option.isSome_iff_exists] using h

end TrustConstr

namespace TrustConstr

/-! ## C2: the codec round trip -/

/-- C2. For every tensor whose shape, dtype and device match the anchor `x0`,
decoding its encoded flat vector (`to_tensor` applied to
`detach().cpu().numpy().flatten()`) succeeds and returns the tensor itself. -/
theorem decode_encode_roundtrip (x0 t : Tensor)
    (hwf : t.wf) (hs : t.shape = x0.shape) (hd : t.dtype = x0.dtype)
    (hdev : t.device = x0.device) :
    to_tensor x0 t.encode = .ok t := by
  have hlen : t.encode.length = x0.numel := by
    simpa [Tensor.encode, Tensor.numel, Tensor.wf, hs] using hwf
  simp only [to_tensor, hlen, if_pos rfl]
  cases t
  simp_all [Tensor.encode]

/-- Witness for C2 at a concrete tensor. -/
theorem decode_encode_roundtrip_witness :
    (Tensor.mk [2] .float32 .cpu [(1 : Q), 2]).wf ∧
      to_tensor (Tensor.mk [2] .float32 .cpu [(3 : Q), 4])
        (Tensor.mk [2] .float32 .cpu [(1 : Q), 2]).encode =
        .ok (Tensor.mk [2] .float32 .cpu [(1 : Q), 2]) :=
  ⟨by decide,
    decode_encode_roundtrip (Tensor.mk [2] .float32 .cpu [(3 : Q), 4])
      (Tensor.mk [2] .float32 .cpu [(1 : Q), 2])
      (by decide) rfl rfl rfl⟩

/-! ## C5: disconnected gradient raises, never zeros -/

/-- C5. If the objective's computation graph yields no gradient at the
decoded input (autograd reports a disconnected graph), the value+gradient
callable raises the differentiation error; in particular it never returns a
result, zero gradient or otherwise. -/
theorem f_with_jac_grad_error (f : DiffFn) (x0 : Tensor) (x : List Q)
    (hlen : x.length = x0.numel)
    (hg : f.grad ⟨x0.shape, x0.dtype, x0.device, x⟩ = none) :
    f_with_jac f x0 x = .error .gradNone ∧
      ∀ r : List Q × List Q, f_with_jac f x0 x ≠ .ok r := by
  have hdec : to_tensor x0 x = .ok ⟨x0.shape, x0.dtype, x0.device, x⟩ := by
    simp [to_tensor, hlen]
  constructor
  · simp [f_with_jac, hdec, hg, Bind.bind, Except.bind]
  · intro r
    simp [f_with_jac, hdec, hg, Bind.bind, Except.bind]

/-- Witness for C5: a constant function detached from its input. -/
theorem f_with_jac_grad_error_witness :
    ([(5 : Q), 6].length = (Tensor.mk [2] .float32 .cpu [(0 : Q), 0]).numel) ∧
      f_with_jac
        ⟨fun _ => Tensor.mk [] .float32 .cpu [(7 : Q)],
          fun _ => none, fun _ _ => none, fun _ _ => none⟩
        (Tensor.mk [2] .float32 .cpu [(0 : Q), 0]) [(5 : Q), 6] =
        .error .gradNone :=
  ⟨by decide,
    (f_with_jac_grad_error
      ⟨fun _ => Tensor.mk [] .float32 .cpu [(7 : Q)],
        fun _ => none, fun _ _ => none, fun _ _ => none⟩
      (Tensor.mk [2] .float32 .cpu [(0 : Q), 0]) [(5 : Q), 6]
      (by decide) rfl).1⟩

end TrustConstr

namespace TrustConstr

/-! ## C1: the three tiers of the constraint Hessian callable -/

/-- C1. The multiplier-scaled Hessian callable of a constraint tries three
tiers in order. With a `hess` override it returns the dense output of
`hess(x)` reshaped to n×n and scaled elementwise by `v[0]`; otherwise with a
`hessp` override it returns a linear operator whose matvec on `p` is
`hessp(x, p)` flattened and scaled by `v[0]`; otherwise it builds the
reverse-over-reverse autodiff operator, taking the first-order pass from the
`jac` override when present, with `v[0]` scaling every matvec result. -/
theorem constr_hvp_tiers (d : Dict) (fd : DiffFn) (x0 : Tensor)
    (x p : List Q) (v0 : Q) (vrest : List Q)
    (hx : x.length = x0.numel) (hplen : p.length = x0.numel) :
    (∀ hh : Tensor → Tensor, dfind d "hess" = some (.vhess hh) →
      (hh ⟨x0.shape, x0.dtype, x0.device, x⟩).numel = x0.numel * x0.numel →
      c_hess d (.vfun fd) x0 x (v0 :: vrest) =
        .ok (.dense ((hh ⟨x0.shape, x0.dtype, x0.device, x⟩).encode.map
          (fun q => v0 * q)), [.callHess])) ∧
    (dfind d "hess" = none →
      ∀ hp2 : Tensor → Tensor → Tensor, dfind d "hessp" = some (.vhessp hp2) →
      applyHess (c_hess d (.vfun fd) x0 x (v0 :: vrest)) p =
        .ok (((hp2 ⟨x0.shape, x0.dtype, x0.device, x⟩
            ⟨x0.shape, x0.dtype, x0.device, p⟩).encode).map (fun q => v0 * q),
          [.callHessp])) ∧
    (dfind d "hess" = none → dfind d "hessp" = none →
      ∀ j : DiffFn, dfind d "jac" = some (.vjac j) →
      ∀ h : Tensor,
        j.vjp ⟨x0.shape, x0.dtype, x0.device, x⟩
          ⟨x0.shape, x0.dtype, x0.device, p⟩ = some h →
      applyHess (c_hess d (.vfun fd) x0 x (v0 :: vrest)) p =
        .ok (h.encode.map (fun q => v0 * q), [.callJac, .autograd])) ∧
    (dfind d "hess" = none → dfind d "hessp" = none → dfind d "jac" = none →
      ∀ g h : Tensor,
        fd.grad ⟨x0.shape, x0.dtype, x0.device, x⟩ = some g →
        fd.hvp ⟨x0.shape, x0.dtype, x0.device, x⟩
          ⟨x0.shape, x0.dtype, x0.device, p⟩ = some h →
      applyHess (c_hess d (.vfun fd) x0 x (v0 :: vrest)) p =
        .ok (h.encode.map (fun q => v0 * q), [.autograd, .autograd])) := by
  have hdec : to_tensor x0 x = .ok ⟨x0.shape, x0.dtype, x0.device, x⟩ := by
    simp [to_tensor, hx]
  have hpdec : to_tensor x0 p = .ok ⟨x0.shape, x0.dtype, x0.device, p⟩ := by
    simp [to_tensor, hplen]
  refine ⟨?_, ?_, ?_, ?_⟩
  · intro hh hfind hnum
    simp [c_hess, hdec, hasKey, hfind, hnum]
  · intro hnone hp2 hfind
    simp [c_hess, hdec, hasKey, hnone, hfind, applyHess, hpdec]
  · intro hnone hnone2 j hfind h hvjp
    simp [c_hess, hdec, hasKey, hnone, hnone2, hfind, applyHess, hpdec, hvjp]
  · intro hnone hnone2 hnone3 g h hgrad hhvp
    simp [c_hess, hdec, hasKey, hnone, hnone2, hnone3, hgrad, applyHess,
      hpdec, hhvp]

/-- A concrete anchor tensor used by the witnesses. -/
def ax : Tensor := ⟨[2], .float32, .cpu, [1, 2]⟩

/-- A concrete differentiable constraint function for the witnesses: the
identity map, with identity-like gradient semantics. -/
def cF : DiffFn :=
  ⟨fun t => t, fun t => some t, fun _ p => some p, fun _ p => some p⟩

/-- A concrete dense Hessian override: the 2×2 identity. -/
def cHess : Tensor → Tensor :=
  fun t => ⟨[2, 2], t.dtype, t.device, [1, 0, 0, 1]⟩

/-- A concrete `hessp` override: returns the direction. -/
def cHessp : Tensor → Tensor → Tensor := fun _ p => p

/-- A concrete `jac` override whose second-pass vjp returns the direction. -/
def cJ : DiffFn :=
  ⟨fun t => t, fun t => some t, fun _ p => some p, fun _ p => some p⟩

/-- Dict with a `hess` override. -/
def dHess : Dict :=
  [("fun", .vfun cF), ("lb", .vbound (.num (.fin 0))), ("hess", .vhess cHess)]

/-- Dict with a `hessp` override only. -/
def dHessp : Dict :=
  [("fun", .vfun cF), ("lb", .vbound (.num (.fin 0))), ("hessp", .vhessp cHessp)]

/-- Dict with a `jac` override only. -/
def dJac : Dict :=
  [("fun", .vfun cF), ("lb", .vbound (.num (.fin 0))), ("jac", .vjac cJ)]

/-- Dict with no second-order override. -/
def dPlain : Dict :=
  [("fun", .vfun cF), ("lb", .vbound (.num (.fin 0)))]

/-- Witness for C1: all four dispatch outcomes at concrete inputs. -/
theorem constr_hvp_tiers_witness :
    (c_hess dHess (.vfun cF) ax [1, 1] ((2 : Q) :: []) =
      .ok (.dense ((cHess ⟨ax.shape, ax.dtype, ax.device, [1, 1]⟩).encode.map
        (fun q => (2 : Q) * q)), [.callHess])) ∧
    (applyHess (c_hess dHessp (.vfun cF) ax [1, 1] ((2 : Q) :: [])) [3, 4] =
      .ok (((cHessp ⟨ax.shape, ax.dtype, ax.device, [1, 1]⟩
          ⟨ax.shape, ax.dtype, ax.device, [3, 4]⟩).encode).map
        (fun q => (2 : Q) * q), [.callHessp])) ∧
    (applyHess (c_hess dJac (.vfun cF) ax [1, 1] ((2 : Q) :: [])) [3, 4] =
      .ok ((Tensor.mk ax.shape ax.dtype ax.device [3, 4]).encode.map
        (fun q => (2 : Q) * q), [.callJac, .autograd])) ∧
    (applyHess (c_hess dPlain (.vfun cF) ax [1, 1] ((2 : Q) :: [])) [3, 4] =
      .ok ((Tensor.mk ax.shape ax.dtype ax.device [3, 4]).encode.map
        (fun q => (2 : Q) * q), [.autograd, .autograd])) := by
  have t := constr_hvp_tiers dHess cF ax [1, 1] [3, 4] 2 []
    (by decide) (by decide)
  have t2 := constr_hvp_tiers dHessp cF ax [1, 1] [3, 4] 2 []
    (by decide) (by decide)
  have t3 := constr_hvp_tiers dJac cF ax [1, 1] [3, 4] 2 []
    (by decide) (by decide)
  have t4 := constr_hvp_tiers dPlain cF ax [1, 1] [3, 4] 2 []
    (by decide) (by decide)
  exact ⟨t.1 cHess rfl (by decide),
    t2.2.1 rfl cHessp rfl,
    t3.2.2.1 rfl rfl cJ rfl (Tensor.mk ax.shape ax.dtype ax.device [3, 4]) rfl,
    t4.2.2.2 rfl rfl rfl (Tensor.mk ax.shape ax.dtype ax.device [1, 1])
      (Tensor.mk ax.shape ax.dtype ax.device [3, 4]) rfl rfl⟩

end TrustConstr

namespace TrustConstr

/-! ## C6: overrides suppress every autodiff fallback -/

/-- C6. For a constraint dict supplying both the `jac` and the `hessp`
override (and no `hess`), the Jacobian callable returns the override's
output having invoked only the override, the Hessian callable's matvec
returns the scaled `hessp` output having invoked only the override, and no
run of either callable records an autodiff engine call. -/
theorem overrides_no_autodiff (d : Dict) (fv : DVal) (x0 : Tensor)
    (x p : List Q) (v0 : Q) (vrest : List Q) (j : DiffFn)
    (hp2 : Tensor → Tensor → Tensor)
    (hx : x.length = x0.numel) (hplen : p.length = x0.numel)
    (hjac : dfind d "jac" = some (.vjac j))
    (hhess : dfind d "hess" = none)
    (hhessp : dfind d "hessp" = some (.vhessp hp2)) :
    c_jac d fv x0 x =
      .ok ((j.eval ⟨x0.shape, x0.dtype, x0.device, x⟩).encode, [.callJac]) ∧
    applyHess (c_hess d fv x0 x (v0 :: vrest)) p =
      .ok (((hp2 ⟨x0.shape, x0.dtype, x0.device, x⟩
          ⟨x0.shape, x0.dtype, x0.device, p⟩).encode).map (fun q => v0 * q),
        [.callHessp]) ∧
    (∀ r evs, c_jac d fv x0 x = .ok (r, evs) → Ev.autograd ∉ evs) ∧
    (∀ r evs, applyHess (c_hess d fv x0 x (v0 :: vrest)) p = .ok (r, evs) →
      Ev.autograd ∉ evs) := by
  have hdec : to_tensor x0 x = .ok ⟨x0.shape, x0.dtype, x0.device, x⟩ := by
    simp [to_tensor, hx]
  have hpdec : to_tensor x0 p = .ok ⟨x0.shape, x0.dtype, x0.device, p⟩ := by
    simp [to_tensor, hplen]
  have hj : c_jac d fv x0 x =
      .ok ((j.eval ⟨x0.shape, x0.dtype, x0.device, x⟩).encode, [.callJac]) := by
    simp [c_jac, hdec, hasKey, hjac]
  have hh : applyHess (c_hess d fv x0 x (v0 :: vrest)) p =
      .ok (((hp2 ⟨x0.shape, x0.dtype, x0.device, x⟩
          ⟨x0.shape, x0.dtype, x0.device, p⟩).encode).map (fun q => v0 * q),
        [.callHessp]) := by
    simp [c_hess, hdec, hasKey, hhess, hhessp, applyHess, hpdec]
  refine ⟨hj, hh, ?_, ?_⟩
  · intro r evs hr
    rw [hj] at hr
    cases hr
    decide
  · intro r evs hr
    rw [hh] at hr
    cases hr
    decide

/-- Dict with both `jac` and `hessp` overrides. -/
def dBoth : Dict :=
  [("fun", .vfun cF), ("lb", .vbound (.num (.fin 0))), ("jac", .vjac cJ),
    ("hessp", .vhessp cHessp)]

/-- Witness for C6 at concrete inputs: the two callables return exactly the
override outputs, with event traces free of autodiff calls. -/
theorem overrides_no_autodiff_witness :
    c_jac dBoth (.vfun cF) ax [1, 1] =
      .ok ((cJ.eval ⟨ax.shape, ax.dtype, ax.device, [1, 1]⟩).encode,
        [.callJac]) ∧
    applyHess (c_hess dBoth (.vfun cF) ax [1, 1] ((2 : Q) :: [])) [3, 4] =
      .ok (((cHessp ⟨ax.shape, ax.dtype, ax.device, [1, 1]⟩
          ⟨ax.shape, ax.dtype, ax.device, [3, 4]⟩).encode).map
        (fun q => (2 : Q) * q), [.callHessp]) :=
  ⟨(overrides_no_autodiff dBoth (.vfun cF) ax [1, 1] [3, 4] 2 [] cJ cHessp
      (by decide) (by decide) rfl rfl rfl).1,
    (overrides_no_autodiff dBoth (.vfun cF) ax [1, 1] [3, 4] 2 [] cJ cHessp
      (by decide) (by decide) rfl rfl rfl).2.1⟩

end TrustConstr

namespace TrustConstr

/-! ## C4: one-sided bound defaults -/

/-- The `ub` field of a successfully built constraint. -/
def ubOf (r : Except Err (Dict × NLConstraint)) : Option BSpec :=
  match r with
  | .ok (_, c) => some c.ub
  | .error _ => none

/-- The `lb` field of a successfully built constraint. -/
def lbOf (r : Except Err (Dict × NLConstraint)) : Option BSpec :=
  match r with
  | .ok (_, c) => some c.lb
  | .error _ => none

/-- The dict state after a successful `_build_constr`. -/
def dictOf (r : Except Err (Dict × NLConstraint)) : Option Dict :=
  match r with
  | .ok (d, _) => some d
  | .error _ => none

/-- Counterexample to C4 as stated: for the constraint dict supplying only
`lb`, the normalized upper bound handed to the solver is the *scalar*
`np.inf`, not a flat vector of the anchor's element count filled with +∞. -/
theorem one_sided_default_counterexample :
    ubOf (build_constr dPlain ax) = some (.num .pinf) ∧
      BSpec.num .pinf ≠ BSpec.arr (List.replicate ax.numel .pinf) := by
  constructor
  · rfl
  · decide

/-- C4 amended. In a constraint specification supplying only `lb`, the
normalized upper bound is the scalar +∞ (left to the external solver to
broadcast), and symmetrically the lower bound defaults to the scalar −∞ when
only `ub` is supplied; an explicitly full-length infinite vector is produced
only on the driver's bounds path, where `_build_bound` broadcasts a scalar
bound to a vector of the anchor's element count. -/
theorem one_sided_default_amended (d e : Dict) (x0 : Tensor) (b : BV)
    (hdk : (dkeys d).all (fun k => k ∈ constrKeys) = true)
    (hdf : hasKey d "fun" = true)
    (hdlb : hasKey d "lb" = true) (hdub : hasKey d "ub" = false)
    (hek : (dkeys e).all (fun k => k ∈ constrKeys) = true)
    (hef : hasKey e "fun" = true)
    (heub : hasKey e "ub" = true) (helb : hasKey e "lb" = false) :
    ubOf (build_constr d x0) = some (.num .pinf) ∧
      lbOf (build_constr e x0) = some (.num .ninf) ∧
      build_bound (.num b) x0 = .ok (List.replicate x0.numel b) := by
  refine ⟨?_, ?_, rfl⟩
  · have hd1 : defaultBounds d = d ++ [("ub", DVal.vbound (.num .pinf))] := by
      simp [defaultBounds, hdlb, hdub]
    have hfind : dfind (defaultBounds d) "ub" =
        some (DVal.vbound (.num .pinf)) := by
      rw [hd1, dfind_append, dfind_of_not_hasKey d "ub" hdub]
      rfl
    simp [ubOf, build_constr, hdk, hdf, hdlb, asBound, hfind]
  · have hd1 : defaultBounds e =
        (e ++ [("lb", DVal.vbound (.num .ninf))]) := by
      have h2 : hasKey (e ++ [("lb", DVal.vbound (.num .ninf))]) "ub" = true := by
        rw [hasKey_append, heub]
        rfl
      simp [defaultBounds, helb, h2]
    have hfind : dfind (defaultBounds e) "lb" =
        some (DVal.vbound (.num .ninf)) := by
      rw [hd1, dfind_append, dfind_of_not_hasKey e "lb" helb]
      rfl
    simp [lbOf, build_constr, hek, hef, heub, asBound, hfind]

/-- Dict with only `ub` supplied. -/
def dUbOnly : Dict := [("fun", .vfun cF), ("ub", .vbound (.num (.fin 5)))]

/-- Witness for the amended C4 at concrete dicts. -/
theorem one_sided_default_amended_witness :
    ubOf (build_constr dPlain ax) = some (.num .pinf) ∧
      lbOf (build_constr dUbOnly ax) = some (.num .ninf) ∧
      build_bound (.num (.fin 7)) ax = .ok (List.replicate ax.numel (.fin 7)) :=
  one_sided_default_amended dPlain dUbOnly ax (.fin 7)
    (by decide) (by decide) (by decide) (by decide)
    (by decide) (by decide) (by decide) (by decide)

end TrustConstr

namespace TrustConstr

/-! ## C9: per-solve freshness versus dict mutation -/

/-- Counterexample to C9 as stated: `_build_constr` fills the missing `ub`
default directly into the caller-supplied dict (an in-place mutation in
Python), so after a solve with a `lb`-only constraint dict the caller's dict
has gained a `ub` key — observable state carried across invocations. -/
theorem constr_dict_mutation_counterexample :
    dictOf (build_constr dPlain ax) = some
      (dPlain ++ [("ub", DVal.vbound (.num .pinf))]) ∧
      dkeys (dPlain ++ [("ub", DVal.vbound (.num .pinf))]) =
        ["fun", "lb", "ub"] ∧
      dkeys dPlain = ["fun", "lb"] ∧
      (["fun", "lb", "ub"] : List String) ≠ ["fun", "lb"] := by
  refine ⟨rfl, rfl, rfl, ?_⟩
  decide

/-- C9 amended. Adapters, bound vectors and the constraint record are built
fresh inside each driver invocation (the builders are functions of their
arguments only), but the caller-supplied constraint dict is not left
untouched: `_build_constr` returns it with missing `lb`/`ub` defaults filled
in place, so a dict lacking one of the bound keys is mutated — it gains the
key, and the change persists for later invocations; only a dict already
carrying both keys passes through unchanged. -/
theorem constr_dict_mutation_amended (d : Dict) (x0 : Tensor)
    (hk : (dkeys d).all (fun k => k ∈ constrKeys) = true)
    (hf : hasKey d "fun" = true)
    (hor : hasKey d "lb" = true ∨ hasKey d "ub" = true) :
    dictOf (build_constr d x0) = some (defaultBounds d) ∧
      (hasKey d "lb" = true → hasKey d "ub" = true → defaultBounds d = d) ∧
      (hasKey d "ub" = false →
        d.length < (defaultBounds d).length ∧ defaultBounds d ≠ d) ∧
      (hasKey d "lb" = false →
        d.length < (defaultBounds d).length ∧ defaultBounds d ≠ d) := by
  refine ⟨?_, ?_, ?_, ?_⟩
  · rcases hor with h | h <;> simp [dictOf, build_constr, hk, hf, h]
  · intro hlb hub
    simp [defaultBounds, hlb, hub]
  · intro hub
    have hlen : d.length < (defaultBounds d).length := by
      unfold defaultBounds
      by_cases hlb : hasKey d "lb" = true
      · have h2 : hasKey d "ub" = false := hub
        simp [hlb, h2]
      · have hlb' : hasKey d "lb" = false := by
          cases h : hasKey d "lb"
          · rfl
          · exact absurd h hlb
        have h2 : hasKey (d ++ [("lb", DVal.vbound (.num .ninf))]) "ub" = false := by
          rw [hasKey_append, hub]
          rfl
        simp [hlb', h2]
    exact ⟨hlen, fun he => by rw [he] at hlen; omega⟩
  · intro hlb
    have hlen : d.length < (defaultBounds d).length := by
      unfold defaultBounds
      by_cases hub : hasKey (d ++ [("lb", DVal.vbound (.num .ninf))]) "ub" = true
      · simp [hlb, hub]
      · have hub' : hasKey (d ++ [("lb", DVal.vbound (.num .ninf))]) "ub" = false := by
          cases h : hasKey (d ++ [("lb", DVal.vbound (.num .ninf))]) "ub"
          · rfl
          · exact absurd h hub
        simp [hlb, hub']
    exact ⟨hlen, fun he => by rw [he] at hlen; omega⟩

/-- Dict carrying both bound keys: passes through unchanged. -/
def dBothBounds : Dict :=
  [("fun", .vfun cF), ("lb", .vbound (.num (.fin 0))),
    ("ub", .vbound (.num (.fin 9)))]

/-- Witness for the amended C9 at concrete dicts. -/
theorem constr_dict_mutation_amended_witness :
    dictOf (build_constr dBothBounds ax) = some (defaultBounds dBothBounds) ∧
      defaultBounds dBothBounds = dBothBounds ∧
      (dPlain.length < (defaultBounds dPlain).length ∧
        defaultBounds dPlain ≠ dPlain) :=
  ⟨(constr_dict_mutation_amended dBothBounds ax (by decide) (by decide)
      (Or.inl (by decide))).1,
    (constr_dict_mutation_amended dBothBounds ax (by decide) (by decide)
      (Or.inl (by decide))).2.1 (by decide) (by decide),
    (constr_dict_mutation_amended dPlain ax (by decide) (by decide)
      (Or.inl (by decide))).2.2.1 (by decide)⟩

end TrustConstr

namespace TrustConstr

/-! ## The driver: callback wrapper, pre-solve validation, result conversion -/

/-- The record `scipy.optimize.minimize` returns for `trust-constr`: a flat
solution vector, a scalar objective value, a flat gradient, and solver-native
pass-through fields. -/
structure ScipyResult where
  x : List Q
  fval : Q
  grad : List Q
  status : Int
  message : String
  niter : Nat
  success : Bool
deriving DecidableEq

/-- The record `fmin_trust_constr` returns after the conversion loop. -/
structure TorchResult where
  x : Tensor
  fval : Tensor
  grad : Tensor
  status : Int
  message : String
  niter : Nat
  success : Bool
deriving DecidableEq

/-- Lines 156-159: `result[key] = torch.tensor(result[key], dtype=x0.dtype,
device=x0.device)` for `fun`, `grad`, `x`, then `result['x'] =
result['x'].view_as(x0)`. `torch.tensor` of a numpy scalar yields a 0-dim
tensor; of a flat numpy vector, a 1-D tensor; `view_as` reshapes the solution
(and raises on an element-count mismatch). Every other field of the solver's
record is untouched. -/
def convertResult (x0 : Tensor) (r : ScipyResult) : Except Err TorchResult :=
  if r.x.length = x0.numel then
    .ok
      { x := ⟨x0.shape, x0.dtype, x0.device, r.x⟩
        fval := ⟨[], x0.dtype, x0.device, [r.fval]⟩
        grad := ⟨[r.grad.length], x0.dtype, x0.device, r.grad⟩
        status := r.status
        message := r.message
        niter := r.niter
        success := r.success }
  else
    .error .shapeMismatch

/-- Lines 124-127: the wrapped callback decodes the solver's flat iterate
into a tensor with the anchor's dtype/device/shape and invokes the user
callback `g` on it. -/
def wrapCallback {α : Type} (g : Tensor → α) (x0 : Tensor) (x : List Q) :
    Except Err α :=
  (to_tensor x0 x).map g

/-- The external solver's callback protocol, as the spec describes it: the
solver invokes the wrapped callback once per iteration, on each flat
iterate in turn. Collects the tensors handed to the user callback. -/
def runCallbacks (x0 : Tensor) (iterates : List (List Q)) :
    Except Err (List Tensor) :=
  iterates.mapM (to_tensor x0)

/-- The fully validated argument pack handed to `scipy.optimize.minimize`
(lines 148-154): the initial flat vector, the normalized bounds when given,
and the zero-or-one constraint records. -/
structure SolverArgs where
  x0np : List Q
  lbub : Option (List BV × List BV)
  cons : List NLConstraint

/-- Lines 116-147 of `fmin_trust_constr`, everything before the `minimize`
call: detach the anchor, normalize the `bounds` pair through `_build_bound`
(asserting it is a 2-element tuple), and build the constraint record. Any
configuration error escapes here, before a solver exists. -/
def preSolve (x0 : Tensor) (constr : Option Dict) (bounds : Option (List BSpec)) :
    Except Err SolverArgs := do
  let lbub ← match bounds with
    | none => pure (none : Option (List BV × List BV))
    | some [b0, b1] => do
        let lb ← build_bound b0 x0
        let ub ← build_bound b1 x0
        pure (some (lb, ub))
    | some _ => .error .assertFail
  let cons ← match constr with
    | none => pure ([] : List NLConstraint)
    | some d =>
        match build_constr d x0 with
        | .error e => .error e
        | .ok (_, c) => pure [c]
  pure ⟨x0.data, lbub, cons⟩

/-- `fmin_trust_constr` (lines 108-161), with the external solver a
parameter: validate and assemble, hand the argument pack to the solver, and
convert the solver's result record back to tensors. -/
def fmin_trust_constr (solver : SolverArgs → ScipyResult) (x0 : Tensor)
    (constr : Option Dict) (bounds : Option (List BSpec)) :
    Except Err TorchResult := do
  let args ← preSolve x0 constr bounds
  convertResult x0 (solver args)

end TrustConstr

namespace TrustConstr

/-! ## C3: result re-encoding -/

/-- A concrete solver result for the C3 counterexample. -/
def srEx : ScipyResult := ⟨[0, 0], 3, [1, 1], 1, "done", 5, true⟩

/-- Counterexample to C3 as stated: converting a solver result against the
shape-`[2]` anchor produces an objective-value tensor of shape `[]` (a 0-dim
scalar; only `x` is reshaped with `view_as`), so not all of `x`/`fun`/`grad`
match the anchor's shape. -/
theorem result_shape_counterexample :
    convertResult ax srEx = .ok
      ⟨⟨[2], .float32, .cpu, [0, 0]⟩, ⟨[], .float32, .cpu, [3]⟩,
        ⟨[2], .float32, .cpu, [1, 1]⟩, 1, "done", 5, true⟩ ∧
      (Tensor.mk [] .float32 .cpu [3]).shape ≠ ax.shape := by
  constructor
  · rfl
  · decide

/-- C3 amended. The converted result's `x` is a tensor with the anchor's
dtype, device and shape holding the solver's solution; `fun` is a 0-dim
scalar tensor and `grad` a 1-D tensor, each with the anchor's dtype and
device (not the anchor's shape); every other field of the solver's record is
passed through unchanged. -/
theorem result_conversion (x0 : Tensor) (r : ScipyResult)
    (hx : r.x.length = x0.numel) :
    (convertResult x0 r).map
        (fun res => (res.x.shape, res.x.dtype, res.x.device, res.x.data)) =
      .ok (x0.shape, x0.dtype, x0.device, r.x) ∧
    (convertResult x0 r).map
        (fun res =>
          (res.fval.shape, res.fval.dtype, res.fval.device, res.fval.data)) =
      .ok ([], x0.dtype, x0.device, [r.fval]) ∧
    (convertResult x0 r).map
        (fun res =>
          (res.grad.shape, res.grad.dtype, res.grad.device, res.grad.data)) =
      .ok ([r.grad.length], x0.dtype, x0.device, r.grad) ∧
    (convertResult x0 r).map
        (fun res => (res.status, res.message, res.niter, res.success)) =
      .ok (r.status, r.message, r.niter, r.success) := by
  refine ⟨?_, ?_, ?_, ?_⟩ <;> simp [convertResult, hx, Except.map]

/-- Witness for the amended C3 at the concrete result record. -/
theorem result_conversion_witness :
    (convertResult ax srEx).map
        (fun res => (res.x.shape, res.x.dtype, res.x.device, res.x.data)) =
      .ok (ax.shape, ax.dtype, ax.device, srEx.x) ∧
    (convertResult ax srEx).map
        (fun res =>
          (res.fval.shape, res.fval.dtype, res.fval.device, res.fval.data)) =
      .ok ([], ax.dtype, ax.device, [srEx.fval]) ∧
    (convertResult ax srEx).map
        (fun res => (res.status, res.message, res.niter, res.success)) =
      .ok (srEx.status, srEx.message, srEx.niter, srEx.success) :=
  ⟨(result_conversion ax srEx (by decide)).1,
    (result_conversion ax srEx (by decide)).2.1,
    (result_conversion ax srEx (by decide)).2.2.2⟩

end TrustConstr

namespace TrustConstr

/-! ## C7: configuration errors precede the solver -/

/-- C7. Each configuration error — an unrecognized constraint key, a
constraint dict missing both `lb` and `ub`, a bound value of unrecognized
type, and a tensor or array bound of the wrong element count — makes the
driver fail with that error for *every* solver function, i.e. the failure is
decided before the external solver is invoked. -/
theorem config_errors_before_solver (x0 : Tensor) (d e : Dict)
    (k : String) (val : DVal) (t : Tensor) (a : List BV) (b : BSpec)
    (hmem : (k, val) ∈ d) (hk : k ∉ constrKeys)
    (hek : (dkeys e).all (fun k' => k' ∈ constrKeys) = true)
    (hef : hasKey e "fun" = true)
    (helb : hasKey e "lb" = false) (heub : hasKey e "ub" = false)
    (ht : ¬ t.numel = x0.numel) (ha : ¬ a.length = x0.numel) :
    (∀ s : SolverArgs → ScipyResult,
      fmin_trust_constr s x0 (some d) none = .error .assertFail) ∧
    (∀ s : SolverArgs → ScipyResult,
      fmin_trust_constr s x0 (some e) none = .error .assertFail) ∧
    (∀ s : SolverArgs → ScipyResult,
      fmin_trust_constr s x0 none (some [.other, b]) = .error .valueError) ∧
    (∀ s : SolverArgs → ScipyResult,
      fmin_trust_constr s x0 none (some [.tens t, b]) = .error .assertFail) ∧
    (∀ s : SolverArgs → ScipyResult,
      fmin_trust_constr s x0 none (some [.arr a, b]) = .error .assertFail) := by
  have hkmem : k ∈ dkeys d := by
    have : (k, val).1 ∈ d.map (fun kv => kv.1) :=
      List.mem_map_of_mem (fun kv => kv.1) hmem
    simpa [dkeys] using this
  have hall : ¬ (dkeys d).all (fun k' => k' ∈ constrKeys) = true := by
    simp only [List.all_eq_true]
    intro hforall
    have hkd := hforall k hkmem
    simp only [decide_eq_true_eq] at hkd
    exact hk hkd
  refine ⟨?_, ?_, ?_, ?_, ?_⟩
  · intro s
    simp [fmin_trust_constr, preSolve, build_constr, hall, Bind.bind,
      Except.bind, pure, Except.pure]
  · intro s
    simp [fmin_trust_constr, preSolve, build_constr, hek, hef, helb, heub,
      Bind.bind, Except.bind, pure, Except.pure]
  · intro s
    simp [fmin_trust_constr, preSolve, build_bound, Bind.bind, Except.bind]
  · intro s
    simp [fmin_trust_constr, preSolve, build_bound, ht, Bind.bind,
      Except.bind]
  · intro s
    simp [fmin_trust_constr, preSolve, build_bound, ha, Bind.bind,
      Except.bind]

/-- A dict with an unrecognized key. -/
def dBadKey : Dict :=
  [("fun", .vfun cF), ("lb", .vbound (.num (.fin 0))),
    ("hesssp", .vhessp cHessp)]

/-- A dict missing both `lb` and `ub`. -/
def dNoBounds : Dict := [("fun", .vfun cF)]

/-- A trivial concrete solver used only to instantiate the quantifier. -/
def sZero : SolverArgs → ScipyResult :=
  fun _ => ⟨[0, 0], 0, [0, 0], 0, "", 0, true⟩

/-- Witness for C7 at concrete bad configurations. -/
theorem config_errors_before_solver_witness :
    fmin_trust_constr sZero ax (some dBadKey) none = .error .assertFail ∧
    fmin_trust_constr sZero ax (some dNoBounds) none = .error .assertFail ∧
    fmin_trust_constr sZero ax none (some [.other, .num (.fin 0)]) =
      .error .valueError ∧
    fmin_trust_constr sZero ax none
        (some [.tens ⟨[3], .float32, .cpu, [1, 2, 3]⟩, .num (.fin 0)]) =
      .error .assertFail ∧
    fmin_trust_constr sZero ax none (some [.arr [.pinf], .num (.fin 0)]) =
      .error .assertFail := by
  have h := config_errors_before_solver ax dBadKey dNoBounds "hesssp"
    (.vhessp cHessp) ⟨[3], .float32, .cpu, [1, 2, 3]⟩ [.pinf] (.num (.fin 0))
    (List.Mem.tail _ (List.Mem.tail _ (List.Mem.head _)))
    (by decide) (by decide) (by decide) (by decide) (by decide)
    (by decide) (by decide)
  exact ⟨h.1 sZero, h.2.1 sZero, h.2.2.1 sZero, h.2.2.2.1 sZero,
    h.2.2.2.2 sZero⟩

end TrustConstr

namespace TrustConstr

/-! ## C8: the callback adapter -/

/-- Per-iterate success of the callback loop: on length-matching iterates, the
solver's callback protocol decodes every flat iterate with the anchor's
metadata. -/
theorem runCallbacks_ok (x0 : Tensor) (l : List (List Q))
    (hall : ∀ it ∈ l, it.length = x0.numel) :
    runCallbacks x0 l =
      .ok (l.map (fun it => Tensor.mk x0.shape x0.dtype x0.device it)) := by
  induction l with
  | nil => rfl
  | cons it rest ih =>
      have hit : it.length = x0.numel := hall it (List.mem_cons_self it rest)
      have hrest : ∀ j ∈ rest, j.length = x0.numel := by
        intro j hj
        exact hall j (List.mem_cons_of_mem it hj)
      simp only [runCallbacks, List.mapM_cons] at *
      rw [ih hrest] at *
      simp [to_tensor, hit, Bind.bind, Except.bind, pure, Except.pure]

/-- C8. The wrapped callback decodes the solver's flat iterate into a tensor
with the anchor's shape/dtype/device and invokes the user callback `g` on
exactly that tensor; across a solve with at least one iteration the user
callback is invoked at least once, and every tensor it receives carries the
anchor's shape, dtype and device. -/
theorem callback_adapter {α : Type} (g : Tensor → α) (x0 : Tensor)
    (x : List Q) (iterates : List (List Q))
    (hx : x.length = x0.numel) (hne : iterates ≠ [])
    (hall : ∀ it ∈ iterates, it.length = x0.numel) :
    wrapCallback g x0 x = .ok (g ⟨x0.shape, x0.dtype, x0.device, x⟩) ∧
    runCallbacks x0 iterates =
      .ok (iterates.map (fun it => Tensor.mk x0.shape x0.dtype x0.device it)) ∧
    (iterates.map (fun it => Tensor.mk x0.shape x0.dtype x0.device it)).length =
      iterates.length ∧
    1 ≤ (iterates.map
      (fun it => Tensor.mk x0.shape x0.dtype x0.device it)).length ∧
    ∀ t ∈ iterates.map (fun it => Tensor.mk x0.shape x0.dtype x0.device it),
      t.shape = x0.shape ∧ t.dtype = x0.dtype ∧ t.device = x0.device := by
  refine ⟨?_, runCallbacks_ok x0 iterates hall, by simp, ?_, ?_⟩
  · simp [wrapCallback, to_tensor, hx, Except.map]
  · simp only [List.length_map]
    exact Nat.one_le_iff_ne_zero.mpr
      (fun h => hne (List.eq_nil_of_length_eq_zero h))
  · intro t ht
    rcases List.mem_map.mp ht with ⟨it, _, rfl⟩
    exact ⟨rfl, rfl, rfl⟩

/-- Witness for C8: a concrete callback over two concrete iterates. -/
theorem callback_adapter_witness :
    wrapCallback (fun t => t.data) ax [5, 6] =
      .ok (Tensor.mk ax.shape ax.dtype ax.device [5, 6]).data ∧
    runCallbacks ax [[1, 2], [3, 4]] =
      .ok ([[1, 2], [3, 4]].map
        (fun it => Tensor.mk ax.shape ax.dtype ax.device it)) ∧
    1 ≤ ([[(1 : Q), 2], [3, 4]].map
      (fun it => Tensor.mk ax.shape ax.dtype ax.device it)).length := by
  have h := callback_adapter (fun t => t.data) ax [5, 6] [[1, 2], [3, 4]]
    (by decide) (by decide) (by decide)
  exact ⟨h.1, h.2.1, h.2.2.2.1⟩

end TrustConstr

namespace TrustConstr

/-! ## C10: copy-on-decode and no aliasing

A small memory model: every host array or tensor carries the id of the
buffer it reads and writes. Each primitive is modelled with its true sharing
behaviour: `torch.tensor(...)` always copies into a fresh buffer, `view_as`
shares its input's buffer, `Tensor.cpu()` is the identity on a CPU-resident
tensor (shares) and copies otherwise, `Tensor.numpy()` shares, and numpy's
`flatten()` and `copy()` both copy. The allocator state is the next fresh
buffer id. -/

/-- A numpy host array with the identity of its backing buffer. -/
structure NpArr where
  bufId : Nat
  vals : List Q
deriving DecidableEq

/-- A tensor with the identity of its backing buffer. -/
structure TensorB where
  bufId : Nat
  shape : List Nat
  dtype : Dtype
  device : Device
  vals : List Q
deriving DecidableEq

/-- `torch.tensor(x, dtype=x0.dtype, device=x0.device)`: always copies the
source array into a freshly allocated buffer. -/
def torchTensor (sig : Nat) (x : NpArr) (dt : Dtype) (dev : Device) :
    TensorB × Nat :=
  (⟨sig, [x.vals.length], dt, dev, x.vals⟩, sig + 1)

/-- `t.view_as(x0)`: a view over the same buffer with the anchor's shape. -/
def viewAs (t : TensorB) (x0 : TensorB) : TensorB :=
  ⟨t.bufId, x0.shape, t.dtype, t.device, t.vals⟩

/-- `to_tensor(x)` in the memory model: `torch.tensor(...).view_as(x0)`. -/
def to_tensorB (sig : Nat) (x0 : TensorB) (x : NpArr) : TensorB × Nat :=
  let (t, sig2) := torchTensor sig x x0.dtype x0.device
  (viewAs t x0, sig2)

/-- `t.cpu()`: the identity (buffer shared) on a CPU tensor, a fresh host
copy otherwise. -/
def cpuOp (sig : Nat) (t : TensorB) : TensorB × Nat :=
  if t.device = .cpu then (t, sig)
  else (⟨sig, t.shape, t.dtype, .cpu, t.vals⟩, sig + 1)

/-- `t.numpy()`: a numpy array sharing the tensor's buffer. -/
def numpyOp (t : TensorB) : NpArr := ⟨t.bufId, t.vals⟩

/-- numpy `a.flatten()`: always copies into a fresh buffer. -/
def flattenOp (sig : Nat) (a : NpArr) : NpArr × Nat :=
  (⟨sig, a.vals⟩, sig + 1)

/-- numpy `a.copy()`: a fresh copy. -/
def copyOp (sig : Nat) (a : NpArr) : NpArr × Nat :=
  (⟨sig, a.vals⟩, sig + 1)

/-- Line 147: `x0_np = x0.cpu().numpy().flatten().copy()`, the initial flat
vector handed to the external solver. -/
def x0ToNp (sig : Nat) (x0 : TensorB) : NpArr × Nat :=
  let (tc, sig2) := cpuOp sig x0
  let a := numpyOp tc
  let (af, sig3) := flattenOp sig2 a
  copyOp sig3 af

/-- Buffer contents, addressed by buffer id. -/
abbrev Store := List (Nat × List Q)

/-- Read a buffer. -/
def Store.read (s : Store) (i : Nat) : Option (List Q) :=
  match s with
  | [] => none
  | (j, v) :: rest => if j = i then some v else Store.read rest i

/-- Overwrite a buffer in place (an in-place tensor mutation by user code). -/
def Store.write (s : Store) (i : Nat) (v : List Q) : Store :=
  match s with
  | [] => []
  | (j, w) :: rest =>
      if j = i then (j, v) :: rest else (j, w) :: Store.write rest i v

/-- Writes to one buffer never change what another buffer holds. -/
theorem Store.read_write_ne (s : Store) (i j : Nat) (v : List Q)
    (hij : i ≠ j) : (Store.write s i v).read j = s.read j := by
  induction s with
  | nil => rfl
  | cons kv rest ih =>
      by_cases h : kv.1 = i
      · have hj : ¬ kv.1 = j := by rw [h]; exact hij
        simp [Store.write, Store.read, h, hj, hij]
      · simp only [Store.write, h, if_false]
        simp [Store.read, ih]

/-- C10. Decoding allocates a fresh buffer holding a copy of the flat
vector's data: the decoded tensor's buffer is the allocator's next id, so it
differs from every live buffer — in particular from the solver's array and
from the caller's `x0`. The initial flat vector handed to the solver likewise
ends in a freshly copied buffer distinct from `x0`'s. Consequently an
in-place write through a decoded tensor leaves both the solver's array buffer
and `x0`'s buffer unchanged. -/
theorem decode_is_fresh_copy (sig : Nat) (x0 : TensorB) (x : NpArr)
    (s : Store) (w : List Q)
    (hx : x.bufId < sig) (hx0 : x0.bufId < sig) :
    (to_tensorB sig x0 x).1.vals = x.vals ∧
    (to_tensorB sig x0 x).1.bufId = sig ∧
    (to_tensorB sig x0 x).1.bufId ≠ x.bufId ∧
    (to_tensorB sig x0 x).1.bufId ≠ x0.bufId ∧
    sig ≤ (x0ToNp sig x0).1.bufId ∧
    (x0ToNp sig x0).1.bufId ≠ x0.bufId ∧
    (x0ToNp sig x0).1.vals = x0.vals ∧
    (s.write (to_tensorB sig x0 x).1.bufId w).read x.bufId = s.read x.bufId ∧
    (s.write (to_tensorB sig x0 x).1.bufId w).read x0.bufId =
      s.read x0.bufId := by
  have hdec : (to_tensorB sig x0 x).1.bufId = sig := rfl
  have hnpid : sig ≤ (x0ToNp sig x0).1.bufId := by
    unfold x0ToNp cpuOp numpyOp flattenOp copyOp
    by_cases h : x0.device = Device.cpu
    all_goals simp [h]
    all_goals omega
  refine ⟨rfl, rfl, ?_, ?_, hnpid, ?_, ?_, ?_, ?_⟩
  · rw [hdec]; omega
  · rw [hdec]; omega
  · omega
  · unfold x0ToNp cpuOp numpyOp flattenOp copyOp
    by_cases h : x0.device = Device.cpu <;> simp [h]
  · exact Store.read_write_ne s _ x.bufId w (by rw [hdec]; omega)
  · exact Store.read_write_ne s _ x0.bufId w (by rw [hdec]; omega)

/-- Witness for C10 at a concrete allocator state, anchor, solver array and
store. -/
theorem decode_is_fresh_copy_witness :
    (to_tensorB 2 ⟨0, [2], .float32, .cpu, [1, 2]⟩ ⟨1, [3, 4]⟩).1.vals =
      [3, 4] ∧
    (to_tensorB 2 ⟨0, [2], .float32, .cpu, [1, 2]⟩ ⟨1, [3, 4]⟩).1.bufId = 2 ∧
    (x0ToNp 2 ⟨0, [2], .float32, .cpu, [1, 2]⟩).1.bufId ≠ 0 ∧
    (Store.write [(0, [1, 2]), (1, [3, 4])]
        (to_tensorB 2 ⟨0, [2], .float32, .cpu, [1, 2]⟩ ⟨1, [3, 4]⟩).1.bufId
        [9, 9]).read 1 =
      Store.read [(0, [1, 2]), (1, [3, 4])] 1 := by
  have h := decode_is_fresh_copy 2 ⟨0, [2], .float32, .cpu, [1, 2]⟩
    ⟨1, [3, 4]⟩ [(0, [1, 2]), (1, [3, 4])] [9, 9] (by decide) (by decide)
  exact ⟨h.1, h.2.1, h.2.2.2.2.2.1, h.2.2.2.2.2.2.2.1⟩

end TrustConstr
